import Mathlib

/-!
# Verification of the hybrid retrieval-and-ranking engine

A shallow embedding of the retrieval engine of `streamlit_app.py` and of the
offline index builder `scripts/build_index.py`.

Modelling conventions:

* Texts are sequences of character codes (`List ℕ`).  Python's `str.lower`
  and `str.split()` are modelled for the ASCII range: lowering maps codes
  65–90 to 97–122, `split()` splits on runs of the ASCII whitespace
  characters (codes 9, 10, 11, 12, 13, 32) and drops empty chunks, and the
  `in` operator on strings is contiguous-subsequence containment.
* Python floats are modelled as exact rationals (`ℚ`); `round(x, 1)` is
  modelled as rounding to the nearest tenth, half away from the floor
  (Python uses round-half-to-even on binary floats; no statement below
  depends on the behaviour at exact ties).
* The external services — the sentence-transformer embedding model and the
  FAISS similarity index — are not part of this repository.  Their output
  (the hit list of a semantic query, the embedding function, the vector
  normalisation) enters the model as an explicit parameter.
-/

/-- A text: the sequence of character codes of a Python string. -/
def Text : Type := List ℕ

deriving instance DecidableEq for Text

instance : Membership ℕ Text := inferInstanceAs (Membership ℕ (List ℕ))

/-- Character codes of a Lean string literal, for writing concrete inputs. -/
def ofString (s : String) : Text := s.toList.map Char.toNat

/-- `str.lower` on one ASCII character code. -/
def lowerCode (c : ℕ) : ℕ := if 65 ≤ c ∧ c ≤ 90 then c + 32 else c

/-- `str.lower` on a text. -/
def lowerText (t : Text) : Text := t.map lowerCode

/-- ASCII whitespace, the separator class of Python's `str.split()`. -/
def isSpaceCode (c : ℕ) : Bool := c = 32 || c = 9 || c = 10 || c = 11 || c = 12 || c = 13

/-- `str.split()` with no separator: split on whitespace runs, drop empties. -/
def wordsOf (t : Text) : List Text :=
  (List.splitOnP isSpaceCode t).filter (fun w => ¬ w = [])

/-- `not s or s.strip() == ""`: the text is empty or all whitespace. -/
def isBlank (t : Text) : Bool := t.all isSpaceCode

/-- Whether `pat` is a prefix of `t` (auxiliary for substring containment). -/
def leadsText (pat t : Text) : Bool :=
  match pat, t with
  | [], _ => true
  | _ :: _, [] => false
  | a :: as, b :: bs => a = b && leadsText as bs

/-- Python's `pat in t` on strings: `pat` occurs contiguously inside `t`. -/
def occursIn (pat t : Text) : Bool :=
  match t with
  | [] => pat.isEmpty
  | _ :: ts => leadsText pat t || occursIn pat ts

/-- The distinct lowercase query tokens of length `> 2`
(`set(t for t in q.lower().split() if len(t) > 2)` in `token_score`). -/
def queryTokens (q : Text) : List Text :=
  ((wordsOf (lowerText q)).filter (fun t => 2 < t.length)).dedup

/-- How many distinct query tokens occur in the lowercased document text. -/
def matchCount (q text : Text) : ℕ :=
  ((queryTokens q).filter (fun t => occursIn t (lowerText text))).length

/-- `len(text.lower().split())`: the word count of the document text. -/
def docWordCount (text : Text) : ℕ := (wordsOf (lowerText text)).length

/-- `token_score` of `streamlit_app.py` (lines 71–77): the lexical score of
one document against the query. -/
def token_score (q text : Text) : ℚ :=
  let qt := queryTokens q
  if text = [] then 0
  else
    let textL := lowerText text
    let s := (qt.filter (fun t => occursIn t textL)).length
    (s : ℚ) / (max 1 (wordsOf textL).length : ℚ)

/-- The spec's formula for the lexical token score: count of distinct
lowercase query tokens of length `> 2` occurring as case-insensitive
substrings of the document text, divided by `max(1, word count)`, with no
special case for the empty text. -/
def tokenScoreSpec (q text : Text) : ℚ :=
  (matchCount q text : ℚ) / (max 1 (docWordCount text) : ℚ)

/-- One corpus entry, as consumed by the engine and the index builder. -/
structure Remedy where
  name : Text
  full_text : Text
  rubrics : List Text
deriving DecidableEq

/-- Placeholder for `remedies[idx]` lookups (the code only reads it behind
an index-in-range guard). -/
def defaultRemedy : Remedy := ⟨[], [], []⟩

/-- How many rubric phrases of the document occur (case-insensitively) in
the raw query (`rub.lower() in complaint.lower()`, summed over the list). -/
def rubricCount (rubrics : List Text) (complaint : Text) : ℕ :=
  (rubrics.filter (fun rub => occursIn (lowerText rub) (lowerText complaint))).length

/-- One scored candidate: corpus position, raw (pre-normalisation) score,
rubric boost contribution `kb`, and the final displayed percent. -/
structure Cand where
  idx : ℕ
  score : ℚ
  kb : ℚ
  percent : ℚ
deriving DecidableEq

/-- Floor of a rational, computably (`Int.fdiv` of numerator by denominator). -/
def floorQ (q : ℚ) : ℤ := q.num.fdiv q.den

/-- Python's `round(x, 1)`: round to one decimal place. -/
def round1 (q : ℚ) : ℚ := (floorQ (10 * q + 1 / 2) : ℚ) / 10

/-- The per-document rubric boost of the lexical path (`kb += 0.02` per
matching rubric, lines 132–135). -/
def lexKb (r : Remedy) (complaint : Text) : ℚ :=
  (2 / 100 : ℚ) * rubricCount r.rubrics complaint

/-- The blended lexical score `0.7 * s + 0.3 * kb` (line 136). -/
def lexTotal (r : Remedy) (complaint : Text) : ℚ :=
  (7 / 10 : ℚ) * token_score complaint r.full_text + (3 / 10 : ℚ) * lexKb r complaint

/-- One entry of the lexical `scored` list, remembering its corpus position. -/
def lexEntry (complaint : Text) (p : ℕ × Remedy) : Cand :=
  ⟨p.1, lexTotal p.2 complaint, lexKb p.2 complaint, 0⟩

/-- The `scored` list of the lexical fallback (lines 128–137), one entry per
corpus document in corpus order. -/
def lexScored (remedies : List Remedy) (complaint : Text) : List Cand :=
  remedies.enum.map (lexEntry complaint)

/-- `max(item["score"] for item in scored)` (0 on the empty list, which the
code never evaluates). -/
def maxScore : List Cand → ℚ
  | [] => 0
  | c :: cs => cs.foldl (fun m d => max m d.score) c.score

/-- `max(...) or 1.0`: the normalisation divisor, 1 when the max is 0. -/
def lexDivisor (scored : List Cand) : ℚ :=
  if maxScore scored = 0 then 1 else maxScore scored

/-- `item["percent"] = round((item["score"]/maxs)*100, 1)` (line 142). -/
def applyPercent (m : ℚ) (c : Cand) : Cand :=
  { c with percent := round1 ((c.score / m) * 100) }

/-- Stable insertion of a candidate into a list sorted by descending score:
the inserted element goes before the first strictly smaller score and after
equal ones, matching the stability of Python's `sorted`. -/
def insertDesc (c : Cand) : List Cand → List Cand
  | [] => [c]
  | d :: ds => if d.score ≤ c.score then c :: d :: ds else d :: insertDesc c ds

/-- `sorted(scored, key=lambda x: x["score"], reverse=True)`: a stable sort
by descending score (stable sorts by one key have a unique output, so
insertion sort models Python's Timsort exactly). -/
def sortDesc : List Cand → List Cand
  | [] => []
  | c :: cs => insertDesc c (sortDesc cs)

/-- The lexical branch of `compute_candidates` (lines 127–145): score every
document, normalise to percents, sort descending, keep the top 50. -/
def lexicalCandidates (remedies : List Remedy) (complaint : Text) : List Cand :=
  let scored := lexScored remedies complaint
  if scored.isEmpty then []
  else
    (sortDesc (scored.map (applyPercent (lexDivisor scored)))).take 50

/-- One hit returned by the external similarity index: corpus position and
cosine-like raw score (`semantic_search_scores` already dropped negative
positions). -/
structure Hit where
  idx : ℕ
  score : ℚ
deriving DecidableEq

/-- `max(h['score'] for h in hits)` (0 on the empty list, never evaluated). -/
def maxHitScore : List Hit → ℚ
  | [] => 0
  | h :: hs => hs.foldl (fun m g => max m g.score) h.score

/-- `max(...) or 1.0` for the semantic path. -/
def semDivisor (hits : List Hit) : ℚ :=
  if maxHitScore hits = 0 then 1 else maxHitScore hits

/-- The loop of the semantic branch (lines 110–125): skip seen or
out-of-range positions, add an 8-point boost per matching rubric, clamp at
99.9, round to one decimal. -/
def semLoop (remedies : List Remedy) (complaint : Text) (m : ℚ) :
    List Hit → List ℕ → List Cand
  | [], _ => []
  | h :: hs, seen =>
    if h.idx ∈ seen ∨ remedies.length ≤ h.idx then
      semLoop remedies complaint m hs seen
    else
      let rem := remedies.getD h.idx defaultRemedy
      let kb : ℚ := 8 * (rubricCount rem.rubrics complaint : ℕ)
      let pct := min (999 / 10 : ℚ) ((h.score / m) * 100 + kb)
      ⟨h.idx, h.score, kb, round1 pct⟩ :: semLoop remedies complaint m hs (h.idx :: seen)

/-- The semantic branch of `compute_candidates` (lines 103–125), given the
hit list returned by the external index. -/
def semanticCandidates (remedies : List Remedy) (complaint : Text)
    (hits : List Hit) : List Cand :=
  if hits.isEmpty then []
  else semLoop remedies complaint (semDivisor hits) hits []

/-- `compute_candidates` (lines 100–145).  `useSem` is the engine's
`use_faiss and model is not None and index is not None and embeddings is
not None` condition; `hits` is what `semantic_search_scores` returned. -/
def computeCandidates (useSem : Bool) (remedies : List Remedy)
    (complaint : Text) (hits : List Hit) : List Cand :=
  if isBlank complaint then []
  else if useSem then semanticCandidates remedies complaint hits
  else lexicalCandidates remedies complaint

/-- The engine's mode state: the module-level `use_faiss` flag. -/
structure EngineState where
  useFaiss : Bool
deriving DecidableEq

/-- The outcome of the external semantic-search call: a hit list, or an
exception raised while encoding/searching. -/
inductive SemOutcome where
  | ok (hits : List Hit)
  | err
deriving DecidableEq

/-- What one query produces: the candidate list handed to the caller and
whether `st.error` was invoked (a user-visible error). -/
structure QueryResult where
  candidates : List Cand
  errorShown : Bool
deriving DecidableEq

/-- Startup mode selection (lines 43–64): `use_faiss` becomes true only if
the embeddings file and the FAISS file exist, the libraries imported, and
the load block raised no exception. -/
def initEngine (embFileExists faissFileExists hasFaissLib loadOk : Bool) : EngineState :=
  ⟨embFileExists && faissFileExists && hasFaissLib && loadOk⟩

/-- One query against the engine.  In semantic mode an invocation failure is
caught inside `semantic_search_scores` (lines 96–98): `st.error` is shown
and the empty hit list makes `compute_candidates` return `[]` (lines
106–107).  The module-level `use_faiss` flag is never written after
startup, so the state is returned unchanged. -/
def runQuery (st : EngineState) (remedies : List Remedy) (complaint : Text)
    (outcome : SemOutcome) : QueryResult × EngineState :=
  if isBlank complaint then (⟨[], false⟩, st)
  else if st.useFaiss then
    match outcome with
    | SemOutcome.ok hits => (⟨semanticCandidates remedies complaint hits, false⟩, st)
    | SemOutcome.err => (⟨[], true⟩, st)
  else (⟨lexicalCandidates remedies complaint, false⟩, st)

/-- What the analyze handler (lines 151–158) shows the user. -/
inductive AnalyzeOutcome where
  | emptyQueryWarning
  | noCandidatesWarning
  | results (rs : List Cand)
deriving DecidableEq

/-- The analyze handler: it re-checks blankness itself before calling
`compute_candidates`, and shows a different warning for an empty result. -/
def handleAnalyze (useSem : Bool) (remedies : List Remedy) (complaint : Text)
    (hits : List Hit) : AnalyzeOutcome :=
  if isBlank complaint then AnalyzeOutcome.emptyQueryWarning
  else
    let rs := computeCandidates useSem remedies complaint hits
    if rs.isEmpty then AnalyzeOutcome.noCandidatesWarning
    else AnalyzeOutcome.results rs

/-- The artifacts `scripts/build_index.py` persists: the (unnormalised)
embedding matrix, the normalised vectors the index is built over, and the
ordered id/name map. -/
structure BuildArtifacts where
  embeddings : List (List ℚ)
  indexVectors : List (List ℚ)
  idMap : List Text
deriving DecidableEq

/-- `main` of `scripts/build_index.py`: truncate each text to 4000
characters, and if there are zero documents print and return **without
writing anything** (lines 28–30); otherwise embed, save the matrix,
normalise, build and save the index, save the name map.  `embed` and
`normalize` stand for the external sentence-transformers model and
`faiss.normalize_L2`. -/
def buildIndex (docs : List Remedy) (embed : Text → List ℚ)
    (normalize : List (List ℚ) → List (List ℚ)) : Option BuildArtifacts :=
  let texts := docs.map (fun d => d.full_text.take 4000)
  if texts.length = 0 then none
  else
    let embs := texts.map embed
    some ⟨embs, normalize embs, docs.map (fun d => d.name)⟩

/-- Ranking order demanded of the final list: strictly larger raw score
first, ties by original corpus position. -/
def rankedBefore (a b : Cand) : Prop :=
  b.score < a.score ∨ (b.score = a.score ∧ a.idx < b.idx)

instance (a b : Cand) : Decidable (rankedBefore a b) := by
  unfold rankedBefore; infer_instance

/-- Default candidate for non-dependent list indexing in statements. -/
def defaultCand : Cand := ⟨0, 0, 0, 0⟩

/-! ### Concrete inputs used by counterexamples and witnesses -/

/-- A two-document corpus with no rubrics. -/
def c1Rems : List Remedy := [⟨ofString "A", ofString "aaa", []⟩, ⟨ofString "B", ofString "bbb", []⟩]

/-- A non-blank query. -/
def c1Q : Text := ofString "pain"

/-- Hits as the similarity index returns them: best score first. -/
def c1Hits : List Hit := [⟨0, 1⟩, ⟨1, 1/3⟩]

/-- Two hits with equal scores, returned by the index with the later corpus
position first. -/
def c5Hits : List Hit := [⟨1, 1/2⟩, ⟨0, 1/2⟩]

/-- A one-document corpus whose document matches the query exactly. -/
def c2Rems : List Remedy := [⟨ofString "A", ofString "alpha", []⟩]

/-- The query matching `c2Rems`'s only document. -/
def c2Q : Text := ofString "alpha"

/-- Document A (position 0) matches three query tokens but has ten words;
document B (position 1) matches one token in two words. -/
def c8Rems : List Remedy :=
  [⟨ofString "A", ofString "alpha beta gamma w1 w2 w3 w4 w5 w6 w7", []⟩,
   ⟨ofString "B", ofString "alpha zz", []⟩]

/-- The query for `c8Rems`. -/
def c8Q : Text := ofString "alpha beta gamma"

/-- Two three-word documents: position 0 matches two query tokens,
position 1 matches one. -/
def c8wRems : List Remedy :=
  [⟨ofString "A", ofString "alpha beta pad", []⟩,
   ⟨ofString "B", ofString "alpha foo bar", []⟩]

/-- The query for `c8wRems`. -/
def c8wQ : Text := ofString "alpha beta"

/-- A corpus no token or rubric of which matches the query `c10Q`. -/
def c10Rems : List Remedy := [⟨ofString "Z", ofString "zzz", []⟩]

/-- A query with no match in `c10Rems`. -/
def c10Q : Text := ofString "hello"

/-! ## Arithmetic helpers -/

theorem floorQ_eq (q : ℚ) : floorQ q = ⌊q⌋ := by
  rw [Rat.floor_def, floorQ, Int.fdiv_eq_ediv _ (by positivity)]

theorem round1_mono {a b : ℚ} (h : a ≤ b) : round1 a ≤ round1 b := by
  unfold round1
  have hf : floorQ (10 * a + 1 / 2) ≤ floorQ (10 * b + 1 / 2) := by
    rw [floorQ_eq, floorQ_eq]
    exact Int.floor_mono (by linarith)
  have : ((floorQ (10 * a + 1 / 2) : ℤ) : ℚ) ≤ ((floorQ (10 * b + 1 / 2) : ℤ) : ℚ) := by
    exact_mod_cast hf
  linarith

theorem round1_zero : round1 0 = 0 := by
  norm_num [round1, floorQ, Int.fdiv]

theorem round1_hundred : round1 100 = 100 := by
  norm_num [round1, floorQ, Int.fdiv]

theorem round1_nonneg {q : ℚ} (h : 0 ≤ q) : 0 ≤ round1 q := by
  have := round1_mono h
  rwa [round1_zero] at this

theorem round1_le_hundred {q : ℚ} (h : q ≤ 100) : round1 q ≤ 100 := by
  have := round1_mono h
  rwa [round1_hundred] at this

/-! ## Sorting helpers -/

theorem insertDesc_perm (c : Cand) (l : List Cand) : (insertDesc c l).Perm (c :: l) := by
  induction l with
  | nil => exact List.Perm.refl _
  | cons d ds ih =>
    by_cases h : d.score ≤ c.score
    · simp [insertDesc, h]
    · simp only [insertDesc, h, if_false]
      exact (List.Perm.cons d ih).trans (List.Perm.swap c d ds)

theorem sortDesc_perm (l : List Cand) : (sortDesc l).Perm l := by
  induction l with
  | nil => exact List.Perm.refl _
  | cons c cs ih =>
    exact (insertDesc_perm c (sortDesc cs)).trans (List.Perm.cons c ih)

theorem mem_insertDesc {x c : Cand} {l : List Cand} :
    x ∈ insertDesc c l ↔ x = c ∨ x ∈ l := by
  rw [(insertDesc_perm c l).mem_iff, List.mem_cons]

theorem rankedBefore_score_le {a b : Cand} (h : rankedBefore a b) : b.score ≤ a.score := by
  rcases h with h | ⟨h, _⟩
  · exact le_of_lt h
  · exact le_of_eq h

theorem insertDesc_pairwise {c : Cand} {l : List Cand}
    (hidx : ∀ d ∈ l, c.idx < d.idx) (hl : l.Pairwise rankedBefore) :
    (insertDesc c l).Pairwise rankedBefore := by
  induction l with
  | nil => simp [insertDesc]
  | cons d ds ih =>
    rw [List.pairwise_cons] at hl
    by_cases h : d.score ≤ c.score
    · simp only [insertDesc, h, if_true]
      rw [List.pairwise_cons]
      refine ⟨?_, List.pairwise_cons.mpr hl⟩
      intro x hx
      rcases List.mem_cons.mp hx with rfl | hx
      · rcases lt_or_eq_of_le h with hlt | heq
        · exact Or.inl hlt
        · exact Or.inr ⟨heq, hidx x (List.mem_cons_self x ds)⟩
      · have hxd : x.score ≤ d.score := rankedBefore_score_le (hl.1 x hx)
        rcases lt_or_eq_of_le (le_trans hxd h) with hlt | heq
        · exact Or.inl hlt
        · exact Or.inr ⟨heq, hidx x (List.mem_cons_of_mem d hx)⟩
    · simp only [insertDesc, h, if_false]
      rw [List.pairwise_cons]
      constructor
      · intro x hx
        rcases mem_insertDesc.mp hx with rfl | hx
        · exact Or.inl (lt_of_not_le h)
        · exact hl.1 x hx
      · exact ih (fun e he => hidx e (List.mem_cons_of_mem d he)) hl.2

theorem sortDesc_pairwise {l : List Cand}
    (h : l.Pairwise (fun a b => a.idx < b.idx)) :
    (sortDesc l).Pairwise rankedBefore := by
  induction l with
  | nil => simp [sortDesc]
  | cons c cs ih =>
    rw [List.pairwise_cons] at h
    refine insertDesc_pairwise ?_ (ih h.2)
    intro d hd
    exact h.1 d ((sortDesc_perm cs).mem_iff.mp hd)

theorem insertDesc_all_eq {c : Cand} {l : List Cand} {s : ℚ}
    (hc : c.score = s) (hl : ∀ d ∈ l, d.score = s) : insertDesc c l = c :: l := by
  cases l with
  | nil => rfl
  | cons d ds =>
    have : d.score ≤ c.score := by
      rw [hc, hl d (List.mem_cons_self d ds)]
    simp [insertDesc, this]

theorem sortDesc_all_eq {l : List Cand} {s : ℚ}
    (h : ∀ d ∈ l, d.score = s) : sortDesc l = l := by
  induction l with
  | nil => rfl
  | cons c cs ih =>
    have hcs : ∀ d ∈ cs, d.score = s := fun d hd => h d (List.mem_cons_of_mem c hd)
    rw [sortDesc, ih hcs, insertDesc_all_eq (h c (List.mem_cons_self c cs)) hcs]

/-! ## Maximum-score helpers -/

theorem le_foldl_max (l : List Cand) (init : ℚ) :
    init ≤ l.foldl (fun m d => max m d.score) init := by
  induction l generalizing init with
  | nil => exact le_refl _
  | cons d ds ih => exact le_trans (le_max_left init d.score) (ih _)

theorem mem_le_foldl_max {l : List Cand} {c : Cand} (h : c ∈ l) (init : ℚ) :
    c.score ≤ l.foldl (fun m d => max m d.score) init := by
  induction l generalizing init with
  | nil => cases h
  | cons d ds ih =>
    rcases List.mem_cons.mp h with rfl | h
    · exact le_trans (le_max_right init c.score) (le_foldl_max ds _)
    · exact ih h _

theorem le_maxScore {l : List Cand} {c : Cand} (h : c ∈ l) : c.score ≤ maxScore l := by
  cases l with
  | nil => cases h
  | cons d ds =>
    rcases List.mem_cons.mp h with rfl | h
    · exact le_foldl_max ds _
    · exact mem_le_foldl_max h _

theorem foldl_max_zero {l : List Cand} (h : ∀ c ∈ l, c.score = 0) :
    l.foldl (fun m d => max m d.score) 0 = 0 := by
  induction l with
  | nil => rfl
  | cons d ds ih =>
    have hd : d.score = 0 := h d (List.mem_cons_self d ds)
    have : (max 0 d.score : ℚ) = 0 := by rw [hd]; exact max_self 0
    simp only [List.foldl_cons, this]
    exact ih (fun c hc => h c (List.mem_cons_of_mem d hc))

theorem maxScore_all_zero {l : List Cand} (h : ∀ c ∈ l, c.score = 0) :
    maxScore l = 0 := by
  cases l with
  | nil => rfl
  | cons c cs =>
    have hc : c.score = 0 := h c (List.mem_cons_self c cs)
    show cs.foldl (fun m d => max m d.score) c.score = 0
    rw [hc]
    exact foldl_max_zero (fun d hd => h d (List.mem_cons_of_mem c hd))

/-! ## Token-score helpers -/

theorem occursIn_nil {pat : Text} (h : pat ≠ []) : occursIn pat [] = false := by
  cases pat with
  | nil => exact absurd rfl h
  | cons a as => rfl

theorem queryTokens_length {q : Text} {t : Text} (h : t ∈ queryTokens q) :
    2 < t.length := by
  unfold queryTokens at h
  have := List.mem_dedup.mp h
  have := List.mem_filter.mp this
  exact of_decide_eq_true this.2

theorem lowerText_nil : lowerText [] = [] := rfl

theorem matchCount_nil (q : Text) : matchCount q [] = 0 := by
  unfold matchCount
  rw [List.length_eq_zero]
  rw [List.filter_eq_nil_iff]
  intro t ht
  have h2 : 2 < t.length := queryTokens_length ht
  have hne : t ≠ [] := by
    intro he
    rw [he] at h2
    exact absurd h2 (by decide)
  rw [lowerText_nil, occursIn_nil hne]
  exact Bool.false_ne_true

theorem token_score_eq (q text : Text) :
    token_score q text = (matchCount q text : ℚ) / (max 1 (docWordCount text) : ℚ) := by
  unfold token_score matchCount docWordCount
  by_cases h : text = []
  · subst h
    have : matchCount q [] = 0 := matchCount_nil q
    unfold matchCount at this
    rw [if_pos rfl, this]
    norm_num
  · rw [if_neg h]

theorem token_score_nonneg (q text : Text) : 0 ≤ token_score q text := by
  rw [token_score_eq]
  positivity

theorem lexKb_nonneg (r : Remedy) (q : Text) : 0 ≤ lexKb r q := by
  unfold lexKb
  positivity

theorem lexTotal_nonneg (r : Remedy) (q : Text) : 0 ≤ lexTotal r q := by
  unfold lexTotal
  have h1 := token_score_nonneg q r.full_text
  have h2 := lexKb_nonneg r q
  positivity

/-! ## Lexical-path characterisation -/

theorem lexScored_length (remedies : List Remedy) (q : Text) :
    (lexScored remedies q).length = remedies.length := by
  simp [lexScored, List.enum_length]

theorem lexEntry_idx (q : Text) (p : ℕ × Remedy) : (lexEntry q p).idx = p.1 := rfl

theorem lexScored_map_idx (remedies : List Remedy) (q : Text) :
    (lexScored remedies q).map (fun c => c.idx) = List.range remedies.length := by
  unfold lexScored
  rw [List.map_map]
  have : ((fun c => c.idx) ∘ lexEntry q) = (Prod.fst : ℕ × Remedy → ℕ) := by
    funext p
    rfl
  rw [this, List.enum_map_fst]

theorem mem_lexScored {remedies : List Remedy} {q : Text} {c : Cand}
    (h : c ∈ lexScored remedies q) :
    ∃ hl : c.idx < remedies.length,
      c.score = lexTotal (remedies.get ⟨c.idx, hl⟩) q ∧
      c.kb = lexKb (remedies.get ⟨c.idx, hl⟩) q ∧ c.percent = 0 := by
  unfold lexScored at h
  rcases List.mem_map.mp h with ⟨p, hp, hpc⟩
  obtain ⟨hlt, hget⟩ := List.mem_enum hp
  subst hpc
  refine ⟨hlt, ?_, ?_, rfl⟩
  · show lexTotal p.2 q = lexTotal (remedies.get ⟨p.1, hlt⟩) q
    rw [hget]
    rfl
  · show lexKb p.2 q = lexKb (remedies.get ⟨p.1, hlt⟩) q
    rw [hget]
    rfl

theorem applyPercent_idx (m : ℚ) (c : Cand) : (applyPercent m c).idx = c.idx := rfl

theorem lexicalCandidates_eq (remedies : List Remedy) (q : Text) :
    lexicalCandidates remedies q =
      if (lexScored remedies q).isEmpty then []
      else
        (sortDesc ((lexScored remedies q).map
          (applyPercent (lexDivisor (lexScored remedies q))))).take 50 := rfl

theorem mem_lexicalCandidates {remedies : List Remedy} {q : Text} {c : Cand}
    (h : c ∈ lexicalCandidates remedies q) :
    ∃ hl : c.idx < remedies.length,
      c.score = lexTotal (remedies.get ⟨c.idx, hl⟩) q ∧
      c.kb = lexKb (remedies.get ⟨c.idx, hl⟩) q ∧
      c.percent = round1 ((c.score / lexDivisor (lexScored remedies q)) * 100) ∧
      ∃ d ∈ lexScored remedies q, d.score = c.score := by
  rw [lexicalCandidates_eq] at h
  by_cases he : (lexScored remedies q).isEmpty
  · rw [if_pos he] at h
    cases h
  · rw [if_neg he] at h
    have h1 : c ∈ sortDesc ((lexScored remedies q).map
        (applyPercent (lexDivisor (lexScored remedies q)))) :=
      (List.take_sublist 50 _).mem h
    have h2 : c ∈ (lexScored remedies q).map
        (applyPercent (lexDivisor (lexScored remedies q))) :=
      (sortDesc_perm _).mem_iff.mp h1
    rcases List.mem_map.mp h2 with ⟨d, hd, hdc⟩
    rcases mem_lexScored hd with ⟨hl, hsc, hkb, _⟩
    subst hdc
    exact ⟨hl, hsc, hkb, rfl, d, hd, rfl⟩

theorem lexScored_score_nonneg {remedies : List Remedy} {q : Text} {c : Cand}
    (h : c ∈ lexScored remedies q) : 0 ≤ c.score := by
  rcases mem_lexScored h with ⟨hl, hsc, _, _⟩
  rw [hsc]
  exact lexTotal_nonneg _ _

/-! ## Semantic-path characterisation -/

theorem semLoop_mem {remedies : List Remedy} {q : Text} {m : ℚ} :
    ∀ {hits : List Hit} {seen : List ℕ} {c : Cand},
      c ∈ semLoop remedies q m hits seen →
      (c.idx < remedies.length ∧ c.idx ∉ seen) ∧
      (c.kb = 8 * (rubricCount (remedies.getD c.idx defaultRemedy).rubrics q : ℚ) ∧
        c.percent = round1 (min (999 / 10) ((c.score / m) * 100 + c.kb))) ∧
      ∃ h ∈ hits, c.idx = h.idx ∧ c.score = h.score := by
  intro hits
  induction hits with
  | nil =>
    intro seen c hc
    cases hc
  | cons h hs ih =>
    intro seen c hc
    rw [semLoop] at hc
    by_cases hcond : h.idx ∈ seen ∨ remedies.length ≤ h.idx
    · rw [if_pos hcond] at hc
      obtain ⟨h1, h2, g, hg, h3⟩ := ih hc
      exact ⟨h1, h2, g, List.mem_cons_of_mem h hg, h3⟩
    · rw [if_neg hcond] at hc
      push_neg at hcond
      rcases List.mem_cons.mp hc with rfl | hc
      · refine ⟨⟨hcond.2, hcond.1⟩, ⟨rfl, rfl⟩, h, List.mem_cons_self h hs, rfl, rfl⟩
      · obtain ⟨⟨hlt, hseen⟩, h2, g, hg, h3⟩ := ih hc
        refine ⟨⟨hlt, ?_⟩, h2, g, List.mem_cons_of_mem h hg, h3⟩
        intro hmem
        exact hseen (List.mem_cons_of_mem h.idx hmem)

theorem semLoop_map_idx_nodup (remedies : List Remedy) (q : Text) (m : ℚ) :
    ∀ (hits : List Hit) (seen : List ℕ),
      ((semLoop remedies q m hits seen).map (fun c => c.idx)).Nodup := by
  intro hits
  induction hits with
  | nil =>
    intro seen
    simp [semLoop]
  | cons h hs ih =>
    intro seen
    rw [semLoop]
    by_cases hcond : h.idx ∈ seen ∨ remedies.length ≤ h.idx
    · rw [if_pos hcond]
      exact ih seen
    · rw [if_neg hcond]
      simp only [List.map_cons, List.nodup_cons]
      refine ⟨?_, ih (h.idx :: seen)⟩
      intro hmem
      rcases List.mem_map.mp hmem with ⟨c, hc, hcidx⟩
      obtain ⟨⟨_, hseen⟩, _, _⟩ := semLoop_mem hc
      exact hseen (hcidx ▸ List.mem_cons_self h.idx seen)

theorem semLoop_pairwise {remedies : List Remedy} {q : Text} {m : ℚ}
    {P : ℚ → ℚ → Prop} :
    ∀ {hits : List Hit} {seen : List ℕ},
      hits.Pairwise (fun h g => P h.score g.score) →
      (semLoop remedies q m hits seen).Pairwise (fun a b => P a.score b.score) := by
  intro hits
  induction hits with
  | nil =>
    intro seen _
    simp [semLoop]
  | cons h hs ih =>
    intro seen hp
    rw [List.pairwise_cons] at hp
    rw [semLoop]
    by_cases hcond : h.idx ∈ seen ∨ remedies.length ≤ h.idx
    · rw [if_pos hcond]
      exact ih hp.2
    · rw [if_neg hcond]
      rw [List.pairwise_cons]
      refine ⟨?_, ih hp.2⟩
      intro b hb
      obtain ⟨_, _, g, hg, _, hbg⟩ := semLoop_mem hb
      show P h.score b.score
      rw [hbg]
      exact hp.1 g hg

theorem semLoop_length_le (remedies : List Remedy) (q : Text) (m : ℚ) :
    ∀ (hits : List Hit) (seen : List ℕ),
      (semLoop remedies q m hits seen).length ≤ hits.length := by
  intro hits
  induction hits with
  | nil =>
    intro seen
    exact le_refl _
  | cons h hs ih =>
    intro seen
    rw [semLoop]
    by_cases hcond : h.idx ∈ seen ∨ remedies.length ≤ h.idx
    · rw [if_pos hcond]
      exact le_trans (ih seen) (Nat.le_succ _)
    · rw [if_neg hcond]
      exact Nat.succ_le_succ (ih (h.idx :: seen))

theorem mem_semanticCandidates {remedies : List Remedy} {q : Text}
    {hits : List Hit} {c : Cand} (h : c ∈ semanticCandidates remedies q hits) :
    c.idx < remedies.length ∧
    c.kb = 8 * (rubricCount (remedies.getD c.idx defaultRemedy).rubrics q : ℚ) ∧
    c.percent = round1 (min (999 / 10) ((c.score / semDivisor hits) * 100 + c.kb)) ∧
    ∃ g ∈ hits, c.idx = g.idx ∧ c.score = g.score := by
  unfold semanticCandidates at h
  by_cases he : hits.isEmpty
  · rw [if_pos he] at h
    cases h
  · rw [if_neg he] at h
    obtain ⟨⟨h1, _⟩, ⟨h2, h3⟩, g, hg, h4⟩ := semLoop_mem h
    exact ⟨h1, h2, h3, g, hg, h4⟩

/-! ## Evaluation lemmas for the concrete inputs -/

theorem token_score_val {q t : Text} {a b : ℕ} (ha : matchCount q t = a)
    (hb : docWordCount t = b) : token_score q t = (a : ℚ) / (max 1 b : ℚ) := by
  rw [token_score_eq, ha, hb]

theorem c2_eval : lexicalCandidates c2Rems c2Q = [⟨0, 7/10, 0, 100⟩] := by
  have hts : token_score c2Q (ofString "alpha") = 1 := by
    rw [token_score_val (a := 1) (b := 1) (by decide) (by decide)]
    norm_num
  have hsc : lexScored c2Rems c2Q = [⟨0, 7/10, 0, 0⟩] := by
    norm_num [lexScored, c2Rems, lexEntry, lexTotal, lexKb, hts, List.enum, rubricCount]
  rw [lexicalCandidates_eq, hsc]
  norm_num [lexDivisor, maxScore, applyPercent, sortDesc, insertDesc, round1_hundred]

theorem c1_eval : semanticCandidates c1Rems c1Q c1Hits =
    [⟨0, 1, 0, 999/10⟩, ⟨1, 1/3, 0, 333/10⟩] := by
  norm_num [semanticCandidates, c1Rems, c1Q, c1Hits, semDivisor, maxHitScore, semLoop,
    rubricCount, defaultRemedy, round1, floorQ, Int.fdiv, min_def]

theorem c5_eval : semanticCandidates c1Rems c1Q c5Hits =
    [⟨1, 1/2, 0, 999/10⟩, ⟨0, 1/2, 0, 999/10⟩] := by
  norm_num [semanticCandidates, c1Rems, c1Q, c5Hits, semDivisor, maxHitScore, semLoop,
    rubricCount, defaultRemedy, round1, floorQ, Int.fdiv, min_def]

theorem c8_eval : lexicalCandidates c8Rems c8Q =
    [⟨1, 7/20, 0, 100⟩, ⟨0, 21/100, 0, 60⟩] := by
  have htsA : token_score c8Q (ofString "alpha beta gamma w1 w2 w3 w4 w5 w6 w7") = 3/10 := by
    rw [token_score_val (a := 3) (b := 10) (by decide) (by decide)]
    norm_num
  have htsB : token_score c8Q (ofString "alpha zz") = 1/2 := by
    rw [token_score_val (a := 1) (b := 2) (by decide) (by decide)]
    norm_num
  have hsc : lexScored c8Rems c8Q = [⟨0, 21/100, 0, 0⟩, ⟨1, 7/20, 0, 0⟩] := by
    norm_num [lexScored, c8Rems, lexEntry, lexTotal, lexKb, htsA, htsB, List.enum,
      List.enumFrom, rubricCount]
  rw [lexicalCandidates_eq, hsc]
  norm_num [lexDivisor, maxScore, applyPercent, sortDesc, insertDesc, round1_hundred,
    round1, floorQ, Int.fdiv]

theorem c8w_eval : lexicalCandidates c8wRems c8wQ =
    [⟨0, 7/15, 0, 100⟩, ⟨1, 7/30, 0, 50⟩] := by
  have htsA : token_score c8wQ (ofString "alpha beta pad") = 2/3 := by
    rw [token_score_val (a := 2) (b := 3) (by decide) (by decide)]
    norm_num
  have htsB : token_score c8wQ (ofString "alpha foo bar") = 1/3 := by
    rw [token_score_val (a := 1) (b := 3) (by decide) (by decide)]
    norm_num
  have hsc : lexScored c8wRems c8wQ = [⟨0, 7/15, 0, 0⟩, ⟨1, 7/30, 0, 0⟩] := by
    norm_num [lexScored, c8wRems, lexEntry, lexTotal, lexKb, htsA, htsB, List.enum,
      List.enumFrom, rubricCount]
  rw [lexicalCandidates_eq, hsc]
  norm_num [lexDivisor, maxScore, applyPercent, sortDesc, insertDesc, round1_hundred,
    round1, floorQ, Int.fdiv]

/-! ## Aggregate properties of the candidate lists -/

theorem lexMapped_map_idx (remedies : List Remedy) (q : Text) (m : ℚ) :
    (((lexScored remedies q).map (applyPercent m)).map (fun c => c.idx)) =
      List.range remedies.length := by
  rw [List.map_map]
  have : ((fun c => c.idx) ∘ applyPercent m) = (fun c : Cand => c.idx) := by
    funext c
    rfl
  rw [this, lexScored_map_idx]

theorem lexicalCandidates_pairwise (remedies : List Remedy) (q : Text) :
    (lexicalCandidates remedies q).Pairwise rankedBefore := by
  rw [lexicalCandidates_eq]
  by_cases he : (lexScored remedies q).isEmpty
  · rw [if_pos he]
    exact List.Pairwise.nil
  · rw [if_neg he]
    apply List.Pairwise.sublist (List.take_sublist _ _)
    apply sortDesc_pairwise
    apply List.pairwise_map.mp
    rw [lexMapped_map_idx]
    exact List.pairwise_lt_range _

theorem lexicalCandidates_length_le (remedies : List Remedy) (q : Text) :
    (lexicalCandidates remedies q).length ≤ 50 := by
  rw [lexicalCandidates_eq]
  by_cases he : (lexScored remedies q).isEmpty
  · rw [if_pos he]
    exact Nat.zero_le _
  · rw [if_neg he]
    rw [List.length_take]
    exact min_le_left _ _

theorem lexicalCandidates_idx_nodup (remedies : List Remedy) (q : Text) :
    ((lexicalCandidates remedies q).map (fun c => c.idx)).Nodup := by
  rw [lexicalCandidates_eq]
  by_cases he : (lexScored remedies q).isEmpty
  · rw [if_pos he]
    exact List.Pairwise.nil
  · rw [if_neg he]
    rw [List.map_take]
    apply List.Nodup.sublist (List.take_sublist _ _)
    have hperm : ((sortDesc ((lexScored remedies q).map
        (applyPercent (lexDivisor (lexScored remedies q))))).map (fun c => c.idx)).Perm
        (((lexScored remedies q).map
          (applyPercent (lexDivisor (lexScored remedies q)))).map (fun c => c.idx)) :=
      (sortDesc_perm _).map _
    apply hperm.symm.nodup
    rw [lexMapped_map_idx]
    exact List.nodup_range _

theorem semanticCandidates_idx_nodup (remedies : List Remedy) (q : Text) (hits : List Hit) :
    ((semanticCandidates remedies q hits).map (fun c => c.idx)).Nodup := by
  unfold semanticCandidates
  by_cases he : hits.isEmpty
  · rw [if_pos he]
    exact List.Pairwise.nil
  · rw [if_neg he]
    exact semLoop_map_idx_nodup _ _ _ _ _

theorem semanticCandidates_length_le (remedies : List Remedy) (q : Text) (hits : List Hit) :
    (semanticCandidates remedies q hits).length ≤ hits.length := by
  unfold semanticCandidates
  by_cases he : hits.isEmpty
  · rw [if_pos he]
    exact Nat.zero_le _
  · rw [if_neg he]
    exact semLoop_length_le _ _ _ _ _

theorem semanticCandidates_pairwise {remedies : List Remedy} {q : Text} {hits : List Hit}
    {P : ℚ → ℚ → Prop} (hp : hits.Pairwise (fun h g => P h.score g.score)) :
    (semanticCandidates remedies q hits).Pairwise (fun a b => P a.score b.score) := by
  unfold semanticCandidates
  by_cases he : hits.isEmpty
  · rw [if_pos he]
    exact List.Pairwise.nil
  · rw [if_neg he]
    exact semLoop_pairwise hp

/-! ## Claims -/

/-- **C3** (confirmed).  For every query and every document, the lexical
token score equals (count of distinct lowercase query tokens of length > 2
occurring as a case-insensitive substring of the document text) divided by
`max(1, word count of the document text)`; the denominator is never zero,
including for the empty document text. -/
theorem C3_token_score_matches_spec (q text : Text) :
    token_score q text = tokenScoreSpec q text ∧ 0 < max 1 (docWordCount text) := by
  constructor
  · rw [token_score_eq]
    rfl
  · exact lt_of_lt_of_le Nat.one_pos (le_max_left 1 _)

/-- **C4** (confirmed).  In both modes and for every query, the candidate
list returned by `compute_candidates` mentions each corpus position at most
once. -/
theorem C4_no_duplicate_documents (useSem : Bool) (remedies : List Remedy)
    (q : Text) (hits : List Hit) :
    ((computeCandidates useSem remedies q hits).map (fun c => c.idx)).Nodup := by
  unfold computeCandidates
  by_cases hb : isBlank q
  · simp [hb]
  · by_cases hu : useSem
    · simp [hb, hu, semanticCandidates_idx_nodup]
    · simp [hb, hu, lexicalCandidates_idx_nodup]

/-- **C7 counterexample**.  At the `compute_candidates` boundary, a
whitespace-only query returns the very same value — the empty list — as a
non-empty query over an empty corpus, so the "empty query" rejection is not
distinguishable from an empty result there. -/
theorem C7_counterexample :
    computeCandidates false c2Rems (ofString "   ") [] = computeCandidates false [] c1Q [] ∧
    computeCandidates false c2Rems (ofString "   ") [] = [] := ⟨rfl, rfl⟩

/-- **C7** (corrected).  An empty or whitespace-only query makes
`compute_candidates` return `[]` before any scoring — the same value as a
zero-candidate result; the distinct "empty query" signal exists only in the
presentation layer, which re-checks blankness itself before calling
`compute_candidates` and shows a different warning than for an empty result. -/
theorem C7_blank_query_handling (useSem : Bool) (remedies : List Remedy)
    (q : Text) (hits : List Hit) :
    (isBlank q = true →
      computeCandidates useSem remedies q hits = [] ∧
      handleAnalyze useSem remedies q hits = AnalyzeOutcome.emptyQueryWarning) ∧
    (isBlank q = false →
      handleAnalyze useSem remedies q hits ≠ AnalyzeOutcome.emptyQueryWarning) ∧
    AnalyzeOutcome.emptyQueryWarning ≠ AnalyzeOutcome.noCandidatesWarning := by
  refine ⟨?_, ?_, by simp⟩
  · intro hb
    constructor
    · simp [computeCandidates, hb]
    · simp [handleAnalyze, hb]
  · intro hb
    simp only [handleAnalyze, hb, Bool.false_eq_true, if_false]
    by_cases he : (computeCandidates useSem remedies q hits).isEmpty
    · simp [he]
    · simp [he]

/-- **C7 witness**: the blank query `" "` is rejected with the
`emptyQueryWarning` signal, before scoring. -/
theorem C7_witness :
    isBlank (ofString " ") = true ∧
    computeCandidates false c2Rems (ofString " ") [] = [] ∧
    handleAnalyze false c2Rems (ofString " ") [] = AnalyzeOutcome.emptyQueryWarning := by
  have h := (C7_blank_query_handling false c2Rems (ofString " ") []).1 (by decide)
  exact ⟨by decide, h.1, h.2⟩

/-- **C9 counterexample**.  On an empty document collection the index
builder writes nothing at all — it does not emit empty artifacts. -/
theorem C9_counterexample :
    buildIndex [] (fun _ => []) (fun m => m) = none ∧
    buildIndex [] (fun _ => []) (fun m => m) ≠ some ⟨[], [], []⟩ := by
  refine ⟨rfl, ?_⟩
  intro h
  simp [buildIndex] at h

/-- **C9** (corrected).  Zero documents is not a failure (no exception),
but the builder returns early without persisting anything: artifacts are
written if and only if the collection is non-empty. -/
theorem C9_empty_build_writes_nothing (docs : List Remedy) (embed : Text → List ℚ)
    (normalize : List (List ℚ) → List (List ℚ)) :
    buildIndex docs embed normalize = none ↔ docs = [] := by
  cases docs with
  | nil => simp [buildIndex]
  | cons d ds => simp [buildIndex]

/-- **C9 witness**: the amended statement at a concrete non-empty corpus. -/
theorem C9_witness :
    buildIndex c10Rems (fun _ => []) (fun m => m) = none ↔ c10Rems = [] :=
  C9_empty_build_writes_nothing c10Rems (fun _ => []) (fun m => m)

/-- **C6 counterexample**.  With the engine in semantic mode, a failure
while invoking the semantic search surfaces a user-visible error
(`st.error`) and yields an empty result; the next call still retries the
semantic path (the flag is unchanged) and again produces an error and an
empty result instead of the non-empty lexical result. -/
theorem C6_counterexample :
    (runQuery (initEngine true true true true) c2Rems c2Q SemOutcome.err).1.errorShown = true ∧
    (runQuery ((runQuery (initEngine true true true true) c2Rems c2Q SemOutcome.err).2)
        c2Rems c2Q SemOutcome.err).1.candidates = [] ∧
    (runQuery ((runQuery (initEngine true true true true) c2Rems c2Q SemOutcome.err).2)
        c2Rems c2Q SemOutcome.err).1.errorShown = true ∧
    lexicalCandidates c2Rems c2Q ≠ [] := by
  refine ⟨rfl, rfl, rfl, ?_⟩
  rw [c2_eval]
  simp

/-- **C6** (corrected).  A failure while *constructing* the semantic path
does fix the engine in lexical mode for its lifetime (the flag is false,
queries never modify the engine state, results are lexical and no error is
surfaced).  But a failure while *invoking* the semantic path at query time
does not downgrade the engine: that call shows a user-visible error and
returns an empty candidate list, and the mode flag stays semantic. -/
theorem C6_mode_behaviour (embF faissF hasF : Bool) (st : EngineState)
    (remedies : List Remedy) (q : Text) (oc : SemOutcome) :
    (initEngine embF faissF hasF false).useFaiss = false ∧
    (runQuery st remedies q oc).2 = st ∧
    (st.useFaiss = false →
      (runQuery st remedies q oc).1.errorShown = false ∧
      (isBlank q = false →
        (runQuery st remedies q oc).1.candidates = lexicalCandidates remedies q)) ∧
    (st.useFaiss = true → isBlank q = false → oc = SemOutcome.err →
      (runQuery st remedies q oc).1 = ⟨[], true⟩) := by
  refine ⟨by simp [initEngine], ?_, ?_, ?_⟩
  · unfold runQuery
    by_cases hb : isBlank q
    · simp [hb]
    · by_cases hu : st.useFaiss
      · cases oc <;> simp [hb, hu]
      · simp [hb, hu]
  · intro hu
    unfold runQuery
    by_cases hb : isBlank q
    · simp [hb]
    · simp [hb, hu]
  · intro hu hb hoc
    subst hoc
    unfold runQuery
    simp [hb, hu]

/-- **C6 witness**: with a load failure at startup the engine is lexical,
stays lexical across a query, shows no error and returns lexical results;
instantiated at a concrete corpus and query. -/
theorem C6_witness :
    (runQuery (initEngine true true true false) c2Rems c2Q SemOutcome.err).2 =
      initEngine true true true false ∧
    (runQuery (initEngine true true true false) c2Rems c2Q SemOutcome.err).1.errorShown = false ∧
    (runQuery (initEngine true true true false) c2Rems c2Q SemOutcome.err).1.candidates =
      lexicalCandidates c2Rems c2Q := by
  have h := C6_mode_behaviour true true true (initEngine true true true false)
    c2Rems c2Q SemOutcome.err
  have h3 := h.2.2.1 rfl
  exact ⟨h.2.1, h3.1, h3.2 (by decide)⟩

/-- **C1 counterexample**.  With hits `[(0, 1), (1, 1/3)]` and no matching
rubric the second candidate's stored percent is `33.3`, not the claim's
`min(99.9, (1/3 / 1) × 100 + 0) = 100/3`: the code rounds the percent to
one decimal before storing it. -/
theorem C1_counterexample :
    (semanticCandidates c1Rems c1Q c1Hits).map (fun c => c.percent) = [999/10, 333/10] ∧
    (333 / 10 : ℚ) ≠ min (999 / 10) ((((1 : ℚ) / 3) / 1) * 100 + 0) := by
  constructor
  · rw [c1_eval]
    rfl
  · norm_num [min_def]

/-- **C1** (corrected).  In semantic mode every returned candidate's percent
equals `min(99.9, (raw_score / max) × 100 + rubric_boost)` **rounded to one
decimal place**, where the divisor is the maximum raw hit score (1 when that
maximum is 0) and the boost is 8 percentage points per rubric phrase of the
document occurring case-insensitively in the raw query. -/
theorem C1_semantic_percent_formula (remedies : List Remedy) (q : Text)
    (hits : List Hit) (c : Cand) (hc : c ∈ semanticCandidates remedies q hits) :
    c.percent = round1 (min (999 / 10) ((c.score / semDivisor hits) * 100 + c.kb)) ∧
    c.kb = 8 * (rubricCount (remedies.getD c.idx defaultRemedy).rubrics q : ℚ) ∧
    c.idx < remedies.length := by
  obtain ⟨h1, h2, h3, _⟩ := mem_semanticCandidates hc
  exact ⟨h3, h2, h1⟩

/-- **C1 witness**: the amended formula instantiated at the second candidate
of the counterexample's run. -/
theorem C1_witness :
    (⟨1, 1/3, 0, 333/10⟩ : Cand) ∈ semanticCandidates c1Rems c1Q c1Hits ∧
    (⟨1, 1/3, 0, 333/10⟩ : Cand).percent =
      round1 (min (999 / 10)
        (((⟨1, 1/3, 0, 333/10⟩ : Cand).score / semDivisor c1Hits) * 100 +
          (⟨1, 1/3, 0, 333/10⟩ : Cand).kb)) := by
  have hmem : (⟨1, 1/3, 0, 333/10⟩ : Cand) ∈ semanticCandidates c1Rems c1Q c1Hits := by
    rw [c1_eval]
    exact List.mem_cons_of_mem _ (List.mem_cons_self _ _)
  exact ⟨hmem, (C1_semantic_percent_formula c1Rems c1Q c1Hits _ hmem).1⟩

/-- **C2 counterexample**.  In lexical mode the top-scoring candidate's
percent is exactly `100.0` (there is no clamp in the code), outside the
claimed interval `[1.0, 99.9]`. -/
theorem C2_counterexample :
    (lexicalCandidates c2Rems c2Q).map (fun c => c.percent) = [100] ∧
    ¬ ((100 : ℚ) ≤ 999 / 10) := by
  constructor
  · rw [c2_eval]
    rfl
  · norm_num

/-- **C2** (corrected).  In lexical mode every returned candidate's percent
is `(score / max score) × 100` rounded to one decimal (divisor 1 when the
maximum is 0), with **no clamping**: it lies in `[0, 100]`, and `100.0` is
attained by a top-scoring candidate (never clamped to 99.9, and 0.0 occurs
when all blended scores are 0). -/
theorem C2_lexical_percent_bounds (remedies : List Remedy) (q : Text) (c : Cand)
    (hc : c ∈ lexicalCandidates remedies q) :
    0 ≤ c.percent ∧ c.percent ≤ 100 ∧
    c.percent = round1 ((c.score / lexDivisor (lexScored remedies q)) * 100) := by
  obtain ⟨hl, hsc, hkb, hpct, d, hd, hds⟩ := mem_lexicalCandidates hc
  have h0 : 0 ≤ d.score := lexScored_score_nonneg hd
  have hle : d.score ≤ maxScore (lexScored remedies q) := le_maxScore hd
  by_cases hz : maxScore (lexScored remedies q) = 0
  · have hdiv : lexDivisor (lexScored remedies q) = 1 := by
      rw [lexDivisor, if_pos hz]
    have hd0 : d.score = 0 := le_antisymm (hz ▸ hle) h0
    have hc0 : c.score = 0 := by rw [← hds, hd0]
    have hp : c.percent = 0 := by
      rw [hpct, hdiv, hc0]
      norm_num [round1_zero]
    refine ⟨?_, ?_, hpct⟩
    · rw [hp]
    · rw [hp]
      norm_num
  · have hdiv : lexDivisor (lexScored remedies q) = maxScore (lexScored remedies q) := by
      rw [lexDivisor, if_neg hz]
    have hMpos : 0 < maxScore (lexScored remedies q) :=
      lt_of_le_of_ne (le_trans h0 hle) (Ne.symm hz)
    have hcs : c.score ≤ maxScore (lexScored remedies q) := hds ▸ hle
    have hc0 : 0 ≤ c.score := hds ▸ h0
    have hratio0 : 0 ≤ c.score / lexDivisor (lexScored remedies q) := by
      rw [hdiv]
      exact div_nonneg hc0 (le_of_lt hMpos)
    have hratio1 : c.score / lexDivisor (lexScored remedies q) ≤ 1 := by
      rw [hdiv]
      exact (div_le_one hMpos).mpr hcs
    refine ⟨?_, ?_, hpct⟩
    · rw [hpct]
      apply round1_nonneg
      positivity
    · rw [hpct]
      apply round1_le_hundred
      nlinarith [hratio0, hratio1]

/-- **C2 witness**: the amended bounds instantiated at the counterexample's
single candidate, whose percent is exactly 100. -/
theorem C2_witness :
    (⟨0, 7/10, 0, 100⟩ : Cand) ∈ lexicalCandidates c2Rems c2Q ∧
    0 ≤ (⟨0, 7/10, 0, 100⟩ : Cand).percent ∧
    (⟨0, 7/10, 0, 100⟩ : Cand).percent ≤ 100 := by
  have hmem : (⟨0, 7/10, 0, 100⟩ : Cand) ∈ lexicalCandidates c2Rems c2Q := by
    rw [c2_eval]
    exact List.mem_cons_self _ _
  have h := C2_lexical_percent_bounds c2Rems c2Q _ hmem
  exact ⟨hmem, h.1, h.2.1⟩

/-- **C5 counterexample**.  In semantic mode the output order is inherited
from the external index: two equal-score hits returned as positions `1, 0`
stay in that order, so ties are **not** broken by original corpus order. -/
theorem C5_counterexample :
    (semanticCandidates c1Rems c1Q c5Hits).map (fun c => (c.idx, c.score)) =
      [(1, 1/2), (0, 1/2)] ∧
    ¬ (semanticCandidates c1Rems c1Q c5Hits).Pairwise rankedBefore := by
  constructor
  · rw [c5_eval]
    rfl
  · rw [c5_eval]
    intro hp
    rw [List.pairwise_cons] at hp
    have h := hp.1 _ (List.mem_cons_self _ _)
    rcases h with h | ⟨_, h⟩
    · exact absurd h (by norm_num)
    · exact absurd h (by norm_num)

/-- **C5** (corrected).  In lexical mode the list is sorted descending by
raw blended score with ties in corpus order, and has at most 50 entries.
In semantic mode the code only preserves the index's hit order: if the hits
come sorted descending by score the output is sorted descending by score
(ties keep the index's order, not corpus order), and the output is no longer
than the hit list, hence at most 50 when at most 50 hits were requested. -/
theorem C5_sorted_and_capped (remedies : List Remedy) (q : Text) (hits : List Hit) :
    ((lexicalCandidates remedies q).Pairwise rankedBefore ∧
      (lexicalCandidates remedies q).length ≤ 50) ∧
    (hits.Pairwise (fun h g => g.score ≤ h.score) →
      (semanticCandidates remedies q hits).Pairwise (fun a b => b.score ≤ a.score)) ∧
    (semanticCandidates remedies q hits).length ≤ hits.length ∧
    (hits.length ≤ 50 → (semanticCandidates remedies q hits).length ≤ 50) := by
  refine ⟨⟨lexicalCandidates_pairwise _ _, lexicalCandidates_length_le _ _⟩, ?_,
    semanticCandidates_length_le _ _ _, ?_⟩
  · intro hp
    exact semanticCandidates_pairwise (P := fun a b => b ≤ a) hp
  · intro h50
    exact le_trans (semanticCandidates_length_le _ _ _) h50

/-- **C5 witness**: the amended statement instantiated at sorted hits. -/
theorem C5_witness :
    List.Pairwise (fun h g => g.score ≤ h.score) c1Hits ∧
    (semanticCandidates c1Rems c1Q c1Hits).Pairwise (fun a b => b.score ≤ a.score) ∧
    (semanticCandidates c1Rems c1Q c1Hits).length ≤ 50 := by
  have hp : List.Pairwise (fun h g => g.score ≤ h.score) c1Hits := by
    norm_num [c1Hits, List.pairwise_cons]
  have h := C5_sorted_and_capped c1Rems c1Q c1Hits
  exact ⟨hp, h.2.1 hp, h.2.2.2 (by norm_num [c1Hits])⟩

/-- **C8 counterexample**.  Document A (corpus position 0) matches three
distinct query tokens and document B (position 1) matches one, yet B is
ranked first: the token score divides the match count by the document's
word count, so the denser short document wins. -/
theorem C8_counterexample :
    matchCount c8Q (ofString "alpha zz") = 1 ∧
    matchCount c8Q (ofString "alpha beta gamma w1 w2 w3 w4 w5 w6 w7") = 3 ∧
    (lexicalCandidates c8Rems c8Q).map (fun c => c.idx) = [1, 0] := by
  refine ⟨by decide, by decide, ?_⟩
  rw [c8_eval]
  rfl

/-- **C8** (corrected).  In lexical mode, if document `i` matches strictly
more distinct query tokens than document `j` **and** the two documents have
the same word count and the same rubric-boost contribution, then `i`'s
entry precedes `j`'s entry wherever both occur in the output of
`compute_candidates`.  (Matching more tokens alone does not suffice: the
score is normalised by document word count and blended with the rubric
boost.) -/
theorem C8_more_matches_ranks_higher (remedies : List Remedy) (q : Text) (i j : ℕ)
    (hi : i < remedies.length) (hj : j < remedies.length)
    (hw : docWordCount (remedies.get ⟨i, hi⟩).full_text =
      docWordCount (remedies.get ⟨j, hj⟩).full_text)
    (hk : rubricCount (remedies.get ⟨i, hi⟩).rubrics q =
      rubricCount (remedies.get ⟨j, hj⟩).rubrics q)
    (hm : matchCount q (remedies.get ⟨j, hj⟩).full_text <
      matchCount q (remedies.get ⟨i, hi⟩).full_text)
    (pA pB : ℕ) (hpA : pA < (lexicalCandidates remedies q).length)
    (hpB : pB < (lexicalCandidates remedies q).length)
    (hA : ((lexicalCandidates remedies q).getD pA defaultCand).idx = i)
    (hB : ((lexicalCandidates remedies q).getD pB defaultCand).idx = j) :
    pA < pB := by
  have hgA : (lexicalCandidates remedies q).getD pA defaultCand =
      (lexicalCandidates remedies q).get ⟨pA, hpA⟩ := by
    rw [List.getD_eq_getElem _ _ hpA]
    rfl
  have hgB : (lexicalCandidates remedies q).getD pB defaultCand =
      (lexicalCandidates remedies q).get ⟨pB, hpB⟩ := by
    rw [List.getD_eq_getElem _ _ hpB]
    rfl
  have hAi : ((lexicalCandidates remedies q).get ⟨pA, hpA⟩).idx = i := by
    rw [← hgA]
    exact hA
  have hBj : ((lexicalCandidates remedies q).get ⟨pB, hpB⟩).idx = j := by
    rw [← hgB]
    exact hB
  obtain ⟨hlA, hscA, _, _, _⟩ :=
    mem_lexicalCandidates (List.get_mem (lexicalCandidates remedies q) pA hpA)
  obtain ⟨hlB, hscB, _, _, _⟩ :=
    mem_lexicalCandidates (List.get_mem (lexicalCandidates remedies q) pB hpB)
  have hgetA : remedies.get ⟨((lexicalCandidates remedies q).get ⟨pA, hpA⟩).idx, hlA⟩ =
      remedies.get ⟨i, hi⟩ := by
    congr 1
    exact Fin.ext hAi
  have hgetB : remedies.get ⟨((lexicalCandidates remedies q).get ⟨pB, hpB⟩).idx, hlB⟩ =
      remedies.get ⟨j, hj⟩ := by
    congr 1
    exact Fin.ext hBj
  have hscA' : ((lexicalCandidates remedies q).get ⟨pA, hpA⟩).score =
      lexTotal (remedies.get ⟨i, hi⟩) q := by
    rw [hscA, hgetA]
  have hscB' : ((lexicalCandidates remedies q).get ⟨pB, hpB⟩).score =
      lexTotal (remedies.get ⟨j, hj⟩) q := by
    rw [hscB, hgetB]
  have hQlt : lexTotal (remedies.get ⟨j, hj⟩) q < lexTotal (remedies.get ⟨i, hi⟩) q := by
    unfold lexTotal lexKb
    rw [token_score_eq, token_score_eq, hw, hk]
    have hwpos : (0 : ℚ) < (max 1 (docWordCount (remedies.get ⟨j, hj⟩).full_text) : ℚ) := by
      exact_mod_cast lt_of_lt_of_le Nat.one_pos (le_max_left 1 _)
    have hmq : (matchCount q (remedies.get ⟨j, hj⟩).full_text : ℚ) <
        (matchCount q (remedies.get ⟨i, hi⟩).full_text : ℚ) := by exact_mod_cast hm
    have hdiv := div_lt_div_of_pos_right hmq hwpos
    linarith
  have hpw := lexicalCandidates_pairwise remedies q
  rw [List.pairwise_iff_get] at hpw
  by_contra hcon
  push_neg at hcon
  rcases lt_or_eq_of_le hcon with hlt | heq
  · have hr := hpw ⟨pB, hpB⟩ ⟨pA, hpA⟩ (Fin.mk_lt_mk.mpr hlt)
    rcases hr with h | ⟨h, _⟩
    · rw [hscA', hscB'] at h
      exact absurd h (not_lt.mpr (le_of_lt hQlt))
    · rw [hscA', hscB'] at h
      exact absurd h.symm (ne_of_lt hQlt)
  · have hij : j = i := by
      have hcc : (⟨pB, hpB⟩ : Fin (lexicalCandidates remedies q).length) = ⟨pA, hpA⟩ :=
        Fin.ext heq
      rw [← hBj, ← hAi, hcc]
    subst hij
    exact lt_irrefl _ hm

/-- **C8 witness**: two three-word documents, one matching two tokens, one
matching one; the first is ranked at position 0, the second at position 1. -/
theorem C8_witness :
    matchCount c8wQ (ofString "alpha foo bar") < matchCount c8wQ (ofString "alpha beta pad") ∧
    (0 : ℕ) < 1 := by
  refine ⟨by decide, ?_⟩
  exact C8_more_matches_ranks_higher c8wRems c8wQ 0 1 (by decide) (by decide) (by decide)
    (by decide) (by decide) 0 1 (by rw [c8w_eval]; decide) (by rw [c8w_eval]; decide)
    (by rw [c8w_eval]; rfl) (by rw [c8w_eval]; rfl)

/-- **C10** (confirmed).  In lexical mode, for a non-empty corpus and a
non-blank query that matches no token and no rubric of any document,
`compute_candidates` still returns a non-empty list — the first
`min(50, corpus size)` documents in corpus order — each with percent 0.0,
rather than an empty "no candidates" result. -/
theorem C10_all_zero_still_returns (remedies : List Remedy) (q : Text) (hits : List Hit)
    (hne : remedies ≠ []) (hq : isBlank q = false)
    (hz : ∀ r ∈ remedies, matchCount q r.full_text = 0 ∧ rubricCount r.rubrics q = 0) :
    computeCandidates false remedies q hits ≠ [] ∧
    (computeCandidates false remedies q hits).map (fun c => c.idx) =
      List.range (min 50 remedies.length) ∧
    ∀ c ∈ computeCandidates false remedies q hits, c.percent = 0 := by
  have hcc : computeCandidates false remedies q hits = lexicalCandidates remedies q := by
    simp [computeCandidates, hq]
  have hall : ∀ d ∈ lexScored remedies q, d.score = 0 := by
    intro d hd
    obtain ⟨hl, hsc, _, _⟩ := mem_lexScored hd
    have hzr := hz (remedies.get ⟨d.idx, hl⟩) (List.get_mem _ _ _)
    rw [hsc]
    unfold lexTotal lexKb
    rw [token_score_eq, hzr.1, hzr.2]
    norm_num
  have hmax : maxScore (lexScored remedies q) = 0 := maxScore_all_zero hall
  have hdiv : lexDivisor (lexScored remedies q) = 1 := by rw [lexDivisor, if_pos hmax]
  have hne' : lexScored remedies q ≠ [] := by
    intro h
    apply hne
    have hlen := lexScored_length remedies q
    rw [h] at hlen
    exact List.eq_nil_of_length_eq_zero hlen.symm
  have hni : ¬ ((lexScored remedies q).isEmpty = true) := by
    simp [List.isEmpty_eq_false.mpr hne']
  have hWall : ∀ d ∈ (lexScored remedies q).map
      (applyPercent (lexDivisor (lexScored remedies q))), d.score = 0 := by
    intro d hd
    rcases List.mem_map.mp hd with ⟨e, he, hed⟩
    rw [← hed]
    exact hall e he
  have hout : lexicalCandidates remedies q =
      ((lexScored remedies q).map (applyPercent (lexDivisor (lexScored remedies q)))).take 50 := by
    rw [lexicalCandidates_eq, if_neg hni, sortDesc_all_eq hWall]
  have hmapidx : (lexicalCandidates remedies q).map (fun c => c.idx) =
      List.range (min 50 remedies.length) := by
    rw [hout, List.map_take, lexMapped_map_idx, List.take_range]
  have hlen : lexicalCandidates remedies q ≠ [] := by
    intro h
    have hx := hmapidx
    rw [h] at hx
    have h0 : min 50 remedies.length = 0 := List.range_eq_nil.mp hx.symm
    have hpos : 0 < remedies.length := List.length_pos.mpr hne
    omega
  have hpct : ∀ c ∈ lexicalCandidates remedies q, c.percent = 0 := by
    intro c hc
    rw [hout] at hc
    have hc' := (List.take_sublist _ _).mem hc
    rcases List.mem_map.mp hc' with ⟨e, he, hec⟩
    rw [← hec]
    show round1 ((e.score / lexDivisor (lexScored remedies q)) * 100) = 0
    rw [hall e he, hdiv]
    norm_num [round1_zero]
  rw [hcc]
  exact ⟨hlen, hmapidx, hpct⟩

/-- **C10 witness**: a one-document corpus with no match for the query
`"hello"` still yields a non-empty candidate list. -/
theorem C10_witness :
    (∀ r ∈ c10Rems, matchCount c10Q r.full_text = 0 ∧ rubricCount r.rubrics c10Q = 0) ∧
    computeCandidates false c10Rems c10Q [] ≠ [] := by
  refine ⟨by decide, ?_⟩
  exact (C10_all_zero_still_returns c10Rems c10Q [] (by decide) (by decide) (by decide)).1
